import Mathlib

/-!
Verification of the diff-parsing / position-mapping / annotation-resolution /
comment-aggregation core of the ai-code-review-system repository.

Lines of text are modelled as lists of characters (`Line`); a diff or a patch
is the list of its lines, matching the Python code's immediate
`splitlines()` of every text input.  Python dict lookups that can fail are
modelled with `Option`, and code paths that raise exceptions (KeyError,
NameError) are modelled with `Except`.
-/

namespace ReviewCore

abbrev Line := List Char

/-- Python's `str.startswith`, on char lists. -/
def hasPrefix : List Char → List Char → Bool
  | [], _ => true
  | _ :: _, [] => false
  | p :: ps, c :: cs => if p = c then hasPrefix ps cs else false

/-- Prefix patterns used by the source's `startswith` tests. -/
def dgP : Line := ("diff --git ").data

def hhP : Line := ("@@").data

def plusP : Line := ['+']

def plus3P : Line := ['+', '+', '+']

def minusP : Line := ['-']

def minus3P : Line := ['-', '-', '-']

def bsP : Line := ['\\']

def diffP : Line := ("diff").data

def indexP : Line := ("index").data

/-- Python's `line.split(' ')` (split at every single space, keeping empties). -/
def splitSpacesAux : Line → Line → List Line
  | [], acc => [acc.reverse]
  | c :: cs, acc =>
      if c = ' ' then acc.reverse :: splitSpacesAux cs []
      else splitSpacesAux cs (c :: acc)

def splitSpaces (l : Line) : List Line := splitSpacesAux l []

/-- Strip a leading `b/` from a path, as the source does for the `b/` side of
a `diff --git a/X b/Y` line. -/
def stripBPrefix (p : Line) : Line :=
  if hasPrefix ("b/").data p then p.drop 2 else p

def isDigitCh (c : Char) : Bool := '0' ≤ c && c ≤ '9'

def digitsVal : Line → Nat → Nat
  | [], acc => acc
  | c :: cs, acc => digitsVal cs (acc * 10 + (c.toNat - Char.toNat '0'))

def headIsDigit : Line → Bool
  | [] => false
  | c :: _ => isDigitCh c

/-- Python's `re.search(r'\+(\d+)', line)`: the first `+` that is followed by
at least one digit, returning the value of the maximal digit run after it. -/
def findPlusDigits : Line → Option Nat
  | [] => none
  | c :: cs =>
      if c = '+' ∧ headIsDigit cs then some (digitsVal (cs.takeWhile isDigitCh) 0)
      else findPlusDigits cs

/-! ## Full-diff scanner of `ReviewService.parse_diff_for_inline_comments`
(src/backend/services/review_service.py, lines 256-294).

State of the single forward pass: the current file (from the last
`diff --git` line), the per-file `github_position` counter, and the
`diff_line_to_position` dict, kept as a list in insertion order
(entry = (diff line number, file path, github position)). -/

structure ScanState where
  currentFile : Option Line
  pos : Nat
  entries : List (Nat × Line × Nat)
deriving DecidableEq, Repr

/-- One iteration of the scanner's `for diff_line_num, line in enumerate` loop. -/
def scanStep (s : ScanState) (n : Nat) (line : Line) : ScanState :=
  if hasPrefix dgP line then
    { currentFile :=
        if 4 ≤ (splitSpaces line).length then
          some (stripBPrefix ((splitSpaces line).getD 3 []))
        else s.currentFile,
      pos := 0, entries := s.entries }
  else if hasPrefix hhP line then s
  else
    match s.currentFile with
    | none => s
    | some f =>
        if hasPrefix plusP line ∧ ¬hasPrefix plus3P line then
          { currentFile := some f, pos := s.pos + 1,
            entries := s.entries ++ [(n, f, s.pos)] }
        else if hasPrefix minusP line ∧ ¬hasPrefix minus3P line then
          { currentFile := some f, pos := s.pos + 1, entries := s.entries }
        else if ¬line.isEmpty ∧ ¬hasPrefix bsP line then
          { currentFile := some f, pos := s.pos + 1,
            entries := s.entries ++ [(n, f, s.pos)] }
        else s

def scanLines : ScanState → Nat → List Line → ScanState
  | s, _, [] => s
  | s, n, l :: ls => scanLines (scanStep s n l) (n + 1) ls

def initScan : ScanState := ⟨none, 0, []⟩

/-- The `diff_line_num -> (file_path, github_position)` map built by
`parse_diff_for_inline_comments`, in dict insertion order. -/
def buildDiffLineMap (lines : List Line) : List (Nat × Line × Nat) :=
  (scanLines initScan 1 lines).entries

/-! ## Annotation resolver of `parse_diff_for_inline_comments`
(src/backend/services/review_service.py, lines 298-336). -/

/-- A raw AI annotation: the `{line, severity, issue, impact, fix}` record
consumed from the review backend. -/
structure RawComment where
  line : Int
  severity : Line
  issue : Line
  impact : Line
  fix : Line
deriving DecidableEq, Repr

/-- A resolved annotation: `{**comment, 'file_path': ..., 'diff_position': ...}`. -/
structure MappedComment where
  src : RawComment
  file_path : Line
  diff_position : Nat
deriving DecidableEq, Repr

/-- Exact dict lookup `diff_line_to_position[ai_diff_line]` (first matching key;
the scanner never inserts a key twice). -/
def lookupDiffLine : List (Nat × Line × Nat) → Int → Option (Line × Nat)
  | [], _ => none
  | e :: es, k => if (e.1 : Int) = k then some e.2 else lookupDiffLine es k

/-- `abs(diff_line - ai_diff_line)` for a map entry. -/
def distTo (k : Int) (e : Nat × Line × Nat) : Nat := ((e.1 : Int) - k).natAbs

/-- One iteration of the fallback loop: keep the candidate iff
`distance <= 3 and distance < best_distance` (initial best distance infinite). -/
def fuzzyStep (k : Int) (acc : Option ((Line × Nat) × Nat)) (e : Nat × Line × Nat) :
    Option ((Line × Nat) × Nat) :=
  match acc with
  | none => if distTo k e ≤ 3 then some (e.2, distTo k e) else none
  | some (b, bd) => if distTo k e ≤ 3 ∧ distTo k e < bd then some (e.2, distTo k e) else some (b, bd)

/-- The fuzzy fallback: scan `diff_line_to_position.items()` in iteration
order and return the best match, if any. -/
def fuzzyBest (m : List (Nat × Line × Nat)) (k : Int) : Option (Line × Nat) :=
  (m.foldl (fuzzyStep k) none).map (fun r => r.1)

/-- Resolution of one annotation: exact lookup first, else fuzzy fallback,
else dropped (`none`). -/
def resolveOne (m : List (Nat × Line × Nat)) (c : RawComment) : Option MappedComment :=
  match lookupDiffLine m c.line with
  | some fp => some ⟨c, fp.1, fp.2⟩
  | none =>
      match fuzzyBest m c.line with
      | some fp => some ⟨c, fp.1, fp.2⟩
      | none => none

/-- Body of the `for i, comment in enumerate(line_comments)` loop: append the
mapped comment when resolution succeeds, otherwise leave the list unchanged. -/
def appendResolved (m : List (Nat × Line × Nat)) (acc : List MappedComment)
    (c : RawComment) : List MappedComment :=
  match resolveOne m c with
  | some r => acc ++ [r]
  | none => acc

def mapComments (m : List (Nat × Line × Nat)) (cs : List RawComment) : List MappedComment :=
  cs.foldl (appendResolved m) []

/-- `ReviewService.parse_diff_for_inline_comments`: guard for empty inputs,
build the diff-line map, then resolve each comment. -/
def parse_diff_for_inline_comments (diffLines : List Line) (cs : List RawComment) :
    List MappedComment :=
  if diffLines.isEmpty ∨ cs.isEmpty then []
  else mapComments (buildDiffLineMap diffLines) cs

/-! ## Comment aggregation of the webhook handler
(src/backend/main.py, lines 124-154).

The handler groups the mapped comments with
`key = (comment['file_path'], comment['actual_line'])`.  A mapped comment is
a dict with keys `line, severity, issue, impact, fix, file_path,
diff_position`; the dynamic lookup is modelled by `MappedComment.getKey`, and
a missing key (Python KeyError) by `Except.error`. -/

inductive Val where
  | intv : Int → Val
  | natv : Nat → Val
  | strv : Line → Val
deriving DecidableEq, Repr

/-- Dynamic dict access on a mapped comment: exactly the keys the resolver
sets are present. -/
def MappedComment.getKey (c : MappedComment) (k : Line) : Option Val :=
  if k = ("line").data then some (Val.intv c.src.line)
  else if k = ("severity").data then some (Val.strv c.src.severity)
  else if k = ("issue").data then some (Val.strv c.src.issue)
  else if k = ("impact").data then some (Val.strv c.src.impact)
  else if k = ("fix").data then some (Val.strv c.src.fix)
  else if k = ("file_path").data then some (Val.strv c.file_path)
  else if k = ("diff_position").data then some (Val.natv c.diff_position)
  else none

/-- `key = (comment['file_path'], comment['actual_line'])`: the first lookup
succeeds, the second raises KeyError. -/
def locationKey (c : MappedComment) : Except Line (Line × Val) :=
  match c.getKey ("file_path").data, c.getKey ("actual_line").data with
  | some (Val.strv f), some v => Except.ok (f, v)
  | some _, none => Except.error ("actual_line").data
  | _, _ => Except.error ("file_path").data

/-- `defaultdict(list)` insertion preserving first-seen key order. -/
def insertGrouped (k : Line × Val) (c : MappedComment) :
    List ((Line × Val) × List MappedComment) → List ((Line × Val) × List MappedComment)
  | [] => [(k, [c])]
  | g :: gs => if g.1 = k then (g.1, g.2 ++ [c]) :: gs else g :: insertGrouped k c gs

/-- The grouping loop `for comment in mapped_comments`; the first KeyError
aborts it. -/
def groupByLocation (cs : List MappedComment) :
    Except Line (List ((Line × Val) × List MappedComment)) :=
  cs.foldlM (fun acc c => (locationKey c).map (fun k => insertGrouped k c acc)) []

/-- A `ReviewComment(body=..., path=..., position=...)` as assembled by the
webhook handler. -/
structure ComposedComment where
  path : Line
  position : Nat
  body : Line
deriving DecidableEq, Repr

def formatSingleBody (c : MappedComment) : Line :=
  ("**").data ++ c.src.severity ++ ("**: ").data ++ c.src.issue ++
  ("\n\n**Impact**: ").data ++ c.src.impact ++ ("\n\n**Fix**: ").data ++ c.src.fix

def formatMultiItem (i : Nat) (c : MappedComment) : Line :=
  ("**").data ++ Nat.toDigits 10 i ++ (". ").data ++ c.src.severity ++ ("**: ").data ++
  c.src.issue ++ ("\n   - **Impact**: ").data ++ c.src.impact ++
  ("\n   - **Fix**: ").data ++ c.src.fix ++ ("\n\n").data

def formatMultiAux : Nat → List MappedComment → Line
  | _, [] => []
  | i, c :: cs => formatMultiItem i c ++ formatMultiAux (i + 1) cs

def formatMultiBody (g : List MappedComment) : Line :=
  ("**Multiple Issues Found (").data ++ Nat.toDigits 10 g.length ++
  (" issues):**\n\n").data ++ formatMultiAux 1 g

/-- Emission of one grouped location: a single-issue body for a group of one,
a numbered multi-issue body otherwise; the position is
`comments[0]['diff_position']` in both cases. -/
def composeGroup (kg : (Line × Val) × List MappedComment) : ComposedComment :=
  match kg.2 with
  | [] => ⟨kg.1.1, 0, []⟩
  | c :: rest =>
      if rest.isEmpty then ⟨kg.1.1, c.diff_position, formatSingleBody c⟩
      else ⟨kg.1.1, c.diff_position, formatMultiBody (c :: rest)⟩

/-- The aggregator: group resolved annotations by location, then emit one
composed comment per group. -/
def aggregateComments (cs : List MappedComment) : Except Line (List ComposedComment) :=
  (groupByLocation cs).map (fun gs => gs.map composeGroup)

/-- The core pipeline of the webhook handler: resolution followed by
aggregation (the surrounding `except Exception` turns an `Except.error` into
an aborted request). -/
def reviewPipeline (diffLines : List Line) (cs : List RawComment) :
    Except Line (List ComposedComment) :=
  aggregateComments (parse_diff_for_inline_comments diffLines cs)

/-! ## `GitHubService._build_position_map_from_patch`
(src/backend/services/git_service.py, lines 266-310). -/

structure PatchState where
  position : Nat
  newLine : Option Nat
  mapping : List (Nat × Nat)
deriving DecidableEq, Repr

/-- Python dict assignment `mapping[k] = v`: overwrite in place if the key
exists, else append. -/
def dictInsertNat (k v : Nat) : List (Nat × Nat) → List (Nat × Nat)
  | [] => [(k, v)]
  | e :: es => if e.1 = k then (k, v) :: es else e :: dictInsertNat k v es

/-- One iteration of the patch loop: `position += 1` happens for every raw
line, including hunk headers and anything before the first hunk. -/
def patchStep (s : PatchState) (line : Line) : PatchState :=
  if hasPrefix hhP line then
    { position := s.position + 1, newLine := findPlusDigits line, mapping := s.mapping }
  else
    match s.newLine with
    | none => { s with position := s.position + 1 }
    | some nl =>
        if line.headD ' ' = '+' then
          { position := s.position + 1, newLine := some (nl + 1),
            mapping := dictInsertNat nl (s.position + 1) s.mapping }
        else if line.headD ' ' = '-' then
          { s with position := s.position + 1 }
        else
          { position := s.position + 1, newLine := some (nl + 1),
            mapping := dictInsertNat nl (s.position + 1) s.mapping }

/-- The `new_line_number -> github_position` map of a single file patch. -/
def build_position_map_from_patch (lines : List Line) : List (Nat × Nat) :=
  (lines.foldl patchStep ⟨0, none, []⟩).mapping

/-! ## `GitHubService._build_diff_to_source_mapping`
(src/backend/services/git_service.py, lines 368-404). -/

structure DTSState where
  cur : Option Nat
  mapping : List (Nat × Nat)
deriving DecidableEq, Repr

def dtsStep (s : DTSState) (n : Nat) (line : Line) : DTSState :=
  if hasPrefix hhP line then { s with cur := findPlusDigits line }
  else
    match s.cur with
    | none => s
    | some src =>
        if hasPrefix plusP line ∧ ¬hasPrefix plus3P line then
          { cur := some (src + 1), mapping := dictInsertNat n src s.mapping }
        else if hasPrefix minusP line ∧ ¬hasPrefix minus3P line then
          s
        else if ¬line.isEmpty ∧ ¬hasPrefix bsP line ∧ ¬hasPrefix diffP line ∧
            ¬hasPrefix indexP line then
          { s with cur := some (src + 1) }
        else s

def dtsLines : DTSState → Nat → List Line → DTSState
  | s, _, [] => s
  | s, n, l :: ls => dtsLines (dtsStep s n l) (n + 1) ls

/-- The `diff_line_number -> source_line_number` map of the full diff. -/
def build_diff_to_source_mapping (lines : List Line) : List (Nat × Nat) :=
  (dtsLines ⟨none, []⟩ 1 lines).mapping

/-! ## Map-building loop of `GitHubService.map_ai_comments_to_line_numbers`
(src/backend/services/git_service.py, lines 510-546).

`current_absolute_line` is a local that only a parsed hunk header assigns:
`none` models the unbound variable.  The added-line branch reads it without
the `in locals()` guard the context branch has, so an added line before any
parsed hunk header raises NameError, modelled as `Except.error`. -/

structure AbsState where
  currentFile : Option Line
  curAbs : Option Nat
  mapping : List (Nat × Line × Nat)
deriving DecidableEq, Repr

/-- Python truthiness of `current_file` (an empty path is falsy). -/
def truthyFile : Option Line → Bool
  | none => false
  | some l => !l.isEmpty

def absStep (s : AbsState) (n : Nat) (line : Line) : Except Line AbsState :=
  if hasPrefix dgP line then
    Except.ok { s with currentFile :=
      (if 4 ≤ (splitSpaces line).length then
        some (stripBPrefix ((splitSpaces line).getD 3 []))
      else s.currentFile) }
  else if hasPrefix hhP line then
    match findPlusDigits line with
    | some st => Except.ok { s with curAbs := some st }
    | none => Except.ok s
  else if truthyFile s.currentFile ∧ hasPrefix plusP line ∧ ¬hasPrefix plus3P line then
    match s.currentFile with
    | some f =>
        match s.curAbs with
        | some a =>
            Except.ok { s with mapping := s.mapping ++ [(n, f, a)], curAbs := some (a + 1) }
        | none => Except.error ("NameError: current_absolute_line").data
    | none => Except.ok s
  else if truthyFile s.currentFile ∧ ¬hasPrefix minusP line ∧ ¬hasPrefix plus3P line ∧
      ¬hasPrefix minus3P line then
    match s.curAbs with
    | some a => Except.ok { s with curAbs := some (a + 1) }
    | none => Except.ok s
  else Except.ok s

def absLines : AbsState → Nat → List Line → Except Line AbsState
  | s, _, [] => Except.ok s
  | s, n, l :: ls =>
      match absStep s n l with
      | Except.ok s2 => absLines s2 (n + 1) ls
      | Except.error e => Except.error e

/-- The `diff_line_num -> (file_path, absolute_line)` map built by
`map_ai_comments_to_line_numbers`. -/
def mapAiCommentsLineMap (lines : List Line) : Except Line (List (Nat × Line × Nat)) :=
  (absLines ⟨none, none, []⟩ 1 lines).map (fun s => s.mapping)

/-! ## Concrete inputs used by the scenario theorems and witnesses -/

def li (s : String) : Line := s.data

def fPy : Line := ("f.py").data

def filePy : Line := ("file.py").data

/-- A minimal diff with one context and one added line. -/
def c1diff : List Line :=
  [li "diff --git a/f.py b/f.py", li "@@ -1,1 +1,2 @@", li " keep", li "+new"]

/-- One annotation whose line reference (4) hits the added line exactly. -/
def c1comments : List RawComment := [⟨4, li "HIGH", li "bug", li "bad", li "fixit"⟩]

/-- Scenario 1 of the spec as a full diff: one file, one hunk
`@@ -1,3 +1,5 @@`, 2 context lines, 2 added lines, 1 context line. -/
def c2scanDiff : List Line :=
  [li "diff --git a/file.py b/file.py", li "@@ -1,3 +1,5 @@",
   li " c1", li " c2", li "+a1", li "+a2", li " c3"]

/-- Scenario 1 as the per-file patch the GitHub files API returns. -/
def c2patch : List Line :=
  [li "@@ -1,3 +1,5 @@", li " c1", li " c2", li "+a1", li "+a2", li " c3"]

/-- A diff whose file section carries the usual `index`, `---`, `+++`
metadata lines before the hunk. -/
def c3diff : List Line :=
  [li "diff --git a/f.py b/f.py", li "index 1111111..2222222 100644",
   li "--- a/f.py", li "+++ b/f.py", li "@@ -1,1 +1,2 @@", li " keep", li "+new"]

/-- A diff with a `\ No newline at end of file` marker between two added lines. -/
def c3bdiff : List Line :=
  [li "diff --git a/f.py b/f.py", li "@@ -1,2 +1,2 @@",
   li "+a", li "\\ No newline at end of file", li "+b"]

/-- A diff whose second hunk header `@@ bad @@` has no parseable `+digits`. -/
def c4diff : List Line :=
  [li "diff --git a/f.py b/f.py", li "@@ -1,2 +1,2 @@",
   li "+a", li "@@ bad @@", li "+b"]

def c4expect : List (Nat × Line × Nat) := [(3, fPy, 1), (5, fPy, 2)]

/-- Two resolved annotations sharing the same `(file, position)` location. -/
def c5m1 : MappedComment := ⟨⟨10, li "HIGH", li "i1", li "im1", li "fx1"⟩, fPy, 2⟩

def c5m2 : MappedComment := ⟨⟨11, li "LOW", li "i2", li "im2", li "fx2"⟩, fPy, 2⟩

def fX : Line := ("x.py").data

def fY : Line := ("y.py").data

/-- A map with two keys at equal distance 3 from line reference 13, in the
two possible iteration orders. -/
def c9tieA : List (Nat × Line × Nat) := [(10, fX, 0), (16, fY, 5)]

def c9tieB : List (Nat × Line × Nat) := [(16, fY, 5), (10, fX, 0)]

/-- A single-file diff with two one-line hunks, as seen by the full-diff
scanner. -/
def c10scanDiff : List Line :=
  [li "diff --git a/f.py b/f.py", li "@@ -1,1 +1,1 @@", li "+a",
   li "@@ -5,1 +5,1 @@", li "+b"]

/-- The same two hunks as a per-file patch. -/
def c10patch : List Line :=
  [li "@@ -1,1 +1,1 @@", li "+a", li "@@ -5,1 +5,1 @@", li "+b"]

/-- A small map used to instantiate the resolver theorems. -/
def w7map : List (Nat × Line × Nat) := [(4, fPy, 1)]

def w7exact : RawComment := ⟨4, li "HIGH", li "e", li "e", li "e"⟩

def w7fuzzy : RawComment := ⟨6, li "LOW", li "g", li "g", li "g"⟩

def w6hdr : Line := li "diff --git a/a.py b/a.py"

def w6rest : List Line := [li "@@ -1,1 +1,2 @@", li " x", li "+y"]

/-- Hunk-content lines that are none of: empty, hunk header, no-newline
marker, file header, `---` marker (the shapes on which the two position-map
builders behave alike line-by-line). -/
def contentLineOk (l : Line) : Prop :=
  l ≠ [] ∧ hasPrefix hhP l = false ∧ hasPrefix dgP l = false ∧
  hasPrefix bsP l = false ∧ hasPrefix minus3P l = false

instance contentLineOkDec (l : Line) : Decidable (contentLineOk l) := by
  unfold contentLineOk
  infer_instance

def w4hdr : Line := li "@@ bad @@"

def w4bad : List Line := [li "+x", li " y"]

def w4rest : List Line := [li "@@ -4,1 +4,1 @@", li "+z"]

def w10dg : Line := li "diff --git a/f.py b/f.py"

def w10hdr : Line := li "@@ -1,3 +1,4 @@"

def w10content : List Line := [li " c1", li "+a1", li "-d1", li " c2"]

/-! # Theorems -/

/-- Claim C1 (code bug): the claim says the core pipeline — resolution
followed by aggregation — never raises and always produces a partial result.
In the code, the aggregation groups by `comment['actual_line']`, a key the
resolver never sets (it sets `file_path` and `diff_position`), so the
webhook aggregation raises KeyError for every input on which at least one
annotation resolves, and the handler aborts with HTTP 500 instead of a
partial result.  Here: one annotation resolves on a two-line diff, and the
pipeline returns the KeyError instead of a comment list. -/
theorem c1_pipeline_keyerror_on_mapped_comment :
    parse_diff_for_inline_comments c1diff c1comments ≠ [] ∧
    reviewPipeline c1diff c1comments = Except.error ("actual_line").data :=
  ⟨by decide, rfl⟩

/-- Claim C2 (counterexample): on the spec's Scenario 1 hunk, the per-file
position map builder `_build_position_map_from_patch` produces the five
positions 2..6, not 0..4 and not 1..5: its position counter is incremented
for every raw patch line including the `@@` header itself, so the first
content line gets position 2. -/
theorem c2_counterexample_positions_start_at_two :
    (build_position_map_from_patch c2patch).map Prod.snd = [2, 3, 4, 5, 6] ∧
    ([2, 3, 4, 5, 6] : List Nat) ≠ [0, 1, 2, 3, 4] ∧
    ([2, 3, 4, 5, 6] : List Nat) ≠ [1, 2, 3, 4, 5] :=
  ⟨by decide, by decide, by decide⟩

/-- Claim C2 (amended): on Scenario 1, the full-diff scanner's map has
exactly 5 entries with consecutive positions 0..4 keyed by raw diff line
numbers 3..7, and the per-file builder's map has exactly 5 entries keyed by
the new-file lines 1..5 — increasing from the hunk's stated start 1 —
with consecutive positions 2..6 (base 2, because the counter is 1-based
over patch lines and the hunk header consumes position 1). -/
theorem c2_amended_scenario_maps :
    buildDiffLineMap c2scanDiff =
      [(3, filePy, 0), (4, filePy, 1), (5, filePy, 2), (6, filePy, 3), (7, filePy, 4)] ∧
    build_position_map_from_patch c2patch = [(1, 2), (2, 3), (3, 4), (4, 5), (5, 6)] :=
  ⟨by decide, by decide⟩

/-- Claim C3 (code bug): the claim says `index`, `---`, `+++` and
`\ No newline at end of file` lines never receive a map entry and never
advance a counter.  In the code, the full-diff scanner's final `elif`
treats `index`, `---` and `+++` lines as context: on `c3diff` the diff
lines 2, 3, 4 (the metadata lines) receive entries at positions 0, 1, 2 and
advance the position counter; and in `map_ai_comments_to_line_numbers` a
`\ No newline at end of file` line advances the new-file line counter, so
the added line after it maps to absolute line 3 instead of 2. -/
theorem c3_metadata_lines_mapped_and_counted :
    buildDiffLineMap c3diff =
      [(2, fPy, 0), (3, fPy, 1), (4, fPy, 2), (6, fPy, 3), (7, fPy, 4)] ∧
    mapAiCommentsLineMap c3bdiff = Except.ok [(3, fPy, 1), (5, fPy, 3)] :=
  ⟨by decide, rfl⟩

/-- Claim C4 (counterexample): the claim says a hunk whose `@@` header has no
parseable `+digits` contributes no map entries.  In
`map_ai_comments_to_line_numbers`, the added line at diff line 5 — inside
the hunk opened by the unparsable header `@@ bad @@` at diff line 4 — still
receives an entry, computed from the previous hunk's continued counter. -/
theorem c4_counterexample_bad_hunk_contributes_entry :
    mapAiCommentsLineMap c4diff = Except.ok c4expect ∧ (5, fPy, 2) ∈ c4expect :=
  ⟨rfl, by decide⟩

/-- Claim C5 (code bug): the claim says the aggregator emits one composed
comment per `(filePath, location)` key, and a group of two annotations at
the same location becomes one numbered multi-issue body.  In the code, the
grouping key reads `comment['actual_line']`, which no resolved annotation
carries, so the aggregator raises KeyError on the very first comment and
emits nothing at all: two annotations at the same location produce an
aborted request, not a combined comment. -/
theorem c5_aggregator_keyerror_on_shared_location :
    c5m1.file_path = c5m2.file_path ∧ c5m1.diff_position = c5m2.diff_position ∧
    aggregateComments [c5m1, c5m2] = Except.error ("actual_line").data :=
  ⟨rfl, rfl, rfl⟩

/-- Claim C10 (counterexample): the claim says the two position-map builders
agree up to one fixed constant offset.  On a two-hunk patch, the scanner
assigns positions 0 and 1 to the two added lines (it never counts hunk
headers), while the per-file builder assigns 2 and 4 (it counts every raw
patch line including both headers): the offsets 2-0 and 4-1 differ, so no
fixed constant offset exists. -/
theorem c10_counterexample_no_fixed_offset :
    buildDiffLineMap c10scanDiff = [(3, fPy, 0), (5, fPy, 1)] ∧
    build_position_map_from_patch c10patch = [(1, 2), (5, 4)] ∧
    (2 : Int) - 0 ≠ 4 - 1 :=
  ⟨by decide, by decide, by decide⟩

/-! ## Resolver structure lemmas (claims C7, C8) -/

theorem foldl_appendResolved (m : List (Nat × Line × Nat)) (cs : List RawComment) :
    ∀ acc : List MappedComment,
    cs.foldl (appendResolved m) acc = acc ++ cs.filterMap (resolveOne m) := by
  induction cs with
  | nil => intro acc; simp [List.filterMap]
  | cons c cs ih =>
      intro acc
      rw [List.foldl_cons, List.filterMap_cons]
      cases h : resolveOne m c with
      | none => rw [ih]; simp [appendResolved, h]
      | some r => rw [ih]; simp [appendResolved, h]

theorem resolveOne_src (m : List (Nat × Line × Nat)) (c : RawComment) (r : MappedComment)
    (h : resolveOne m c = some r) : r.src = c := by
  unfold resolveOne at h
  cases h1 : lookupDiffLine m c.line with
  | some fp => rw [h1] at h; injection h with h; rw [← h]
  | none =>
      rw [h1] at h
      cases h2 : fuzzyBest m c.line with
      | some fp => rw [h2] at h; injection h with h; rw [← h]
      | none => rw [h2] at h; cases h

theorem filterMap_resolveOne_src (m : List (Nat × Line × Nat)) (cs : List RawComment) :
    (cs.filterMap (resolveOne m)).map MappedComment.src =
      cs.filter (fun c => (resolveOne m c).isSome) := by
  induction cs with
  | nil => rfl
  | cons c cs ih =>
      rw [List.filterMap_cons, List.filter_cons]
      cases h : resolveOne m c with
      | none => simpa [h] using ih
      | some r =>
          have hs := resolveOne_src m c r h
          simp [h, hs, ih]

/-- Claim C8: the resolver's output has at most as many elements as the
input, is exactly the order-preserving `filterMap` of per-annotation
resolution (so it keeps the input order of the annotations it keeps), and
every output element carries the payload of exactly one input annotation —
the kept sources form a sublist of the input, nothing is fabricated. -/
theorem c8_resolver_output_is_order_preserving_filterMap :
    ∀ (m : List (Nat × Line × Nat)) (cs : List RawComment),
    mapComments m cs = cs.filterMap (resolveOne m) ∧
    (mapComments m cs).length ≤ cs.length ∧
    (mapComments m cs).map MappedComment.src =
      cs.filter (fun c => (resolveOne m c).isSome) ∧
    List.Sublist ((mapComments m cs).map MappedComment.src) cs := by
  intro m cs
  have h1 : mapComments m cs = cs.filterMap (resolveOne m) := by
    simpa using foldl_appendResolved m cs []
  refine ⟨h1, ?_, ?_, ?_⟩
  · rw [h1]; exact List.length_filterMap_le _ _
  · rw [h1]; exact filterMap_resolveOne_src m cs
  · rw [h1, filterMap_resolveOne_src m cs]; exact List.filter_sublist cs

theorem fuzzyStep_pres (k : Int) (S : List (Nat × Line × Nat)) (e : Nat × Line × Nat)
    (acc : Option ((Line × Nat) × Nat)) (he : e ∈ S)
    (hacc : ∀ b bd, acc = some (b, bd) → bd ≤ 3 ∧ ∃ x ∈ S, x.2 = b ∧ distTo k x = bd) :
    ∀ b bd, fuzzyStep k acc e = some (b, bd) →
      bd ≤ 3 ∧ ∃ x ∈ S, x.2 = b ∧ distTo k x = bd := by
  intro b bd h
  cases acc with
  | none =>
      by_cases hd : distTo k e ≤ 3
      · rw [fuzzyStep, if_pos hd] at h
        injection h with h
        injection h with hb hbd
        exact ⟨hbd ▸ hd, e, he, hb, hbd⟩
      · rw [fuzzyStep, if_neg hd] at h
        cases h
  | some p =>
      obtain ⟨b0, bd0⟩ := p
      by_cases hd : distTo k e ≤ 3 ∧ distTo k e < bd0
      · rw [fuzzyStep, if_pos hd] at h
        injection h with h
        injection h with hb hbd
        exact ⟨hbd ▸ hd.1, e, he, hb, hbd⟩
      · rw [fuzzyStep, if_neg hd] at h
        injection h with h
        injection h with hb hbd
        obtain ⟨h3, x, hx, hxb, hxd⟩ := hacc b0 bd0 rfl
        exact ⟨hbd ▸ h3, x, hx, hb ▸ hxb, hbd ▸ hxd⟩

theorem fuzzyFold_inv (k : Int) (S : List (Nat × Line × Nat)) :
    ∀ (l : List (Nat × Line × Nat)) (acc : Option ((Line × Nat) × Nat)),
    (∀ e ∈ l, e ∈ S) →
    (∀ b bd, acc = some (b, bd) → bd ≤ 3 ∧ ∃ x ∈ S, x.2 = b ∧ distTo k x = bd) →
    ∀ b bd, l.foldl (fuzzyStep k) acc = some (b, bd) →
      bd ≤ 3 ∧ ∃ x ∈ S, x.2 = b ∧ distTo k x = bd := by
  intro l
  induction l with
  | nil => intro acc _ hacc b bd h; exact hacc b bd h
  | cons e es ih =>
      intro acc hmem hacc b bd h
      rw [List.foldl_cons] at h
      exact ih (fuzzyStep k acc e)
        (fun x hx => hmem x (List.mem_cons_of_mem _ hx))
        (fuzzyStep_pres k S e acc (hmem e (List.mem_cons_self _ _)) hacc) b bd h

theorem fuzzyBest_close (m : List (Nat × Line × Nat)) (k : Int) (fp : Line × Nat)
    (h : fuzzyBest m k = some fp) : ∃ e ∈ m, e.2 = fp ∧ distTo k e ≤ 3 := by
  unfold fuzzyBest at h
  cases hf : m.foldl (fuzzyStep k) none with
  | none => rw [hf] at h; cases h
  | some p =>
      obtain ⟨b, bd⟩ := p
      rw [hf] at h
      injection h with h
      obtain ⟨h3, x, hx, hxb, hxd⟩ :=
        fuzzyFold_inv k m m none (fun e he => he) (by intro b bd h; cases h) b bd hf
      exact ⟨x, hx, h ▸ hxb, hxd ▸ h3⟩

/-- Claim C7: an annotation whose line reference has an exact key in the
diff-line map resolves to exactly that location; an annotation resolved by
the fuzzy fallback always lands on a map entry whose key is within distance
3 of the line reference; and an annotation with no exact key and no fuzzy
candidate resolves to nothing (it is dropped). -/
theorem c7_resolution_exact_first_fuzzy_within_tolerance :
    (∀ (m : List (Nat × Line × Nat)) (c : RawComment) (fp : Line × Nat),
        lookupDiffLine m c.line = some fp → resolveOne m c = some ⟨c, fp.1, fp.2⟩) ∧
    (∀ (m : List (Nat × Line × Nat)) (c : RawComment) (r : MappedComment),
        lookupDiffLine m c.line = none → resolveOne m c = some r →
        ∃ e ∈ m, e.2 = (r.file_path, r.diff_position) ∧ distTo c.line e ≤ 3) ∧
    (∀ (m : List (Nat × Line × Nat)) (c : RawComment),
        lookupDiffLine m c.line = none → fuzzyBest m c.line = none →
        resolveOne m c = none) := by
  refine ⟨?_, ?_, ?_⟩
  · intro m c fp h
    unfold resolveOne
    rw [h]
  · intro m c r h1 h2
    unfold resolveOne at h2
    rw [h1] at h2
    cases h3 : fuzzyBest m c.line with
    | none => rw [h3] at h2; cases h2
    | some fp =>
        rw [h3] at h2
        injection h2 with h2
        obtain ⟨e, he, hefp, hed⟩ := fuzzyBest_close m c.line fp h3
        refine ⟨e, he, ?_, hed⟩
        rw [hefp, ← h2]
  · intro m c h1 h2
    unfold resolveOne
    rw [h1, h2]

/-- Witness for C7: on the concrete map `[(4, f.py, 1)]`, the annotation at
line 4 resolves exactly, the annotation at line 6 resolves through the
fuzzy fallback to an entry within distance 3, and on the empty map an
annotation resolves to nothing. -/
theorem c7_witness :
    resolveOne w7map w7exact = some ⟨w7exact, fPy, 1⟩ ∧
    (∃ e ∈ w7map, e.2 = ((⟨w7fuzzy, fPy, 1⟩ : MappedComment).file_path,
        (⟨w7fuzzy, fPy, 1⟩ : MappedComment).diff_position) ∧ distTo w7fuzzy.line e ≤ 3) ∧
    resolveOne ([] : List (Nat × Line × Nat)) w7exact = none :=
  ⟨c7_resolution_exact_first_fuzzy_within_tolerance.1 w7map w7exact (fPy, 1) (by decide),
   c7_resolution_exact_first_fuzzy_within_tolerance.2.1 w7map w7fuzzy ⟨w7fuzzy, fPy, 1⟩
     (by decide) (by decide),
   c7_resolution_exact_first_fuzzy_within_tolerance.2.2 [] w7exact (by decide) (by decide)⟩

/-! ## Scanner invariants (claims C6, C9) -/

theorem scanStep_shape (s : ScanState) (n : Nat) (line : Line) :
    (scanStep s n line).entries = s.entries ∨
    ∃ f, (scanStep s n line).entries = s.entries ++ [(n, f, s.pos)] ∧
      (scanStep s n line).pos = s.pos + 1 := by
  unfold scanStep
  split
  · left; rfl
  · split
    · left; rfl
    · split
      · left; rfl
      · split
        · right; exact ⟨_, rfl, rfl⟩
        · split
          · left; rfl
          · split
            · right; exact ⟨_, rfl, rfl⟩
            · left; rfl

theorem scanStep_dg (s : ScanState) (n : Nat) (line : Line)
    (h : hasPrefix dgP line = true) :
    (scanStep s n line).pos = 0 ∧ (scanStep s n line).entries = s.entries := by
  simp [scanStep, h]

theorem scanStep_pos_shape (s : ScanState) (n : Nat) (line : Line)
    (h : hasPrefix dgP line = false) :
    (scanStep s n line).pos = s.pos ∨ (scanStep s n line).pos = s.pos + 1 := by
  unfold scanStep
  rw [h]
  simp only [Bool.false_eq_true, if_false]
  split
  · left; rfl
  · split
    · left; rfl
    · split
      · right; rfl
      · split
        · right; rfl
        · split
          · right; rfl
          · left; rfl

theorem scanLines_keys (lines : List Line) : ∀ (s : ScanState) (n : Nat),
    ∃ new, (scanLines s n lines).entries = s.entries ++ new ∧
      (∀ e ∈ new, n ≤ e.1) ∧ List.Pairwise (fun a b => a.1 < b.1) new := by
  induction lines with
  | nil => intro s n; exact ⟨[], by simp [scanLines], by simp, List.Pairwise.nil⟩
  | cons l ls ih =>
      intro s n
      obtain ⟨new2, h2, hb2, hp2⟩ := ih (scanStep s n l) (n + 1)
      have hred : scanLines s n (l :: ls) = scanLines (scanStep s n l) (n + 1) ls := rfl
      rcases scanStep_shape s n l with hsh | ⟨f, hsh, -⟩
      · refine ⟨new2, ?_, fun e he => Nat.le_of_succ_le (hb2 e he), hp2⟩
        rw [hred, h2, hsh]
      · refine ⟨(n, f, s.pos) :: new2, ?_, ?_, ?_⟩
        · rw [hred, h2, hsh, List.append_assoc]; rfl
        · intro e he
          rcases List.mem_cons.mp he with rfl | he2
          · exact Nat.le_refl n
          · exact Nat.le_of_succ_le (hb2 e he2)
        · exact List.Pairwise.cons (fun e he => hb2 e he) hp2

theorem scanLines_pos (lines : List Line) : ∀ (s : ScanState) (n : Nat),
    (∀ l ∈ lines, hasPrefix dgP l = false) →
    ∃ new, (scanLines s n lines).entries = s.entries ++ new ∧
      (∀ e ∈ new, s.pos ≤ e.2.2) ∧ List.Pairwise (fun a b => a.2.2 < b.2.2) new := by
  induction lines with
  | nil => intro s n _; exact ⟨[], by simp [scanLines], by simp, List.Pairwise.nil⟩
  | cons l ls ih =>
      intro s n hl
      have hld : hasPrefix dgP l = false := hl l (List.mem_cons_self _ _)
      obtain ⟨new2, h2, hb2, hp2⟩ :=
        ih (scanStep s n l) (n + 1) (fun x hx => hl x (List.mem_cons_of_mem _ hx))
      have hred : scanLines s n (l :: ls) = scanLines (scanStep s n l) (n + 1) ls := rfl
      have hople : s.pos ≤ (scanStep s n l).pos := by
        rcases scanStep_pos_shape s n l hld with hp | hp <;> omega
      rcases scanStep_shape s n l with hsh | ⟨f, hsh, hpos⟩
      · refine ⟨new2, ?_, fun e he => Nat.le_trans hople (hb2 e he), hp2⟩
        rw [hred, h2, hsh]
      · refine ⟨(n, f, s.pos) :: new2, ?_, ?_, ?_⟩
        · rw [hred, h2, hsh, List.append_assoc]; rfl
        · intro e he
          rcases List.mem_cons.mp he with rfl | he2
          · exact Nat.le_refl _
          · have := hb2 e he2
            rw [hpos] at this
            omega
        · refine List.Pairwise.cons (fun e he => ?_) hp2
          have := hb2 e he
          rw [hpos] at this
          show s.pos < e.2.2
          omega

theorem scanLines_append (a b : List Line) : ∀ (s : ScanState) (n : Nat),
    scanLines s n (a ++ b) = scanLines (scanLines s n a) (n + a.length) b := by
  induction a with
  | nil => intro s n; simp [scanLines]
  | cons l ls ih =>
      intro s n
      have h1 : scanLines s n ((l :: ls) ++ b) = scanLines (scanStep s n l) (n + 1) (ls ++ b) := rfl
      rw [h1, ih]
      have h2 : n + 1 + ls.length = n + (l :: ls).length := by
        simp [List.length_cons]; omega
      rw [h2]
      rfl

/-- Claim C6: within a file section of the diff — the lines after one
`diff --git` header containing no further file header — the positions of
the map entries produced are strictly increasing in insertion order, across
all hunks of the section (a `@@` header never resets the counter); the
position counter never decreases at a non-file-header line, and is set to 0
exactly at a `diff --git` line. -/
theorem c6_diffPosition_strictly_increasing_reset_only_at_file_header :
    (∀ (pre rest : List Line) (hdr : Line), hasPrefix dgP hdr = true →
        (∀ l ∈ rest, hasPrefix dgP l = false) →
        ∃ new, buildDiffLineMap (pre ++ hdr :: rest) =
            (scanLines initScan 1 pre).entries ++ new ∧
          List.Pairwise (fun a b => a.2.2 < b.2.2) new) ∧
    (∀ (s : ScanState) (n : Nat) (line : Line), hasPrefix dgP line = false →
        s.pos ≤ (scanStep s n line).pos) ∧
    (∀ (s : ScanState) (n : Nat) (line : Line), hasPrefix dgP line = true →
        (scanStep s n line).pos = 0) := by
  refine ⟨?_, ?_, ?_⟩
  · intro pre rest hdr hh hrest
    unfold buildDiffLineMap
    rw [scanLines_append pre (hdr :: rest) initScan 1]
    have hred : scanLines (scanLines initScan 1 pre) (1 + pre.length) (hdr :: rest) =
        scanLines (scanStep (scanLines initScan 1 pre) (1 + pre.length) hdr)
          (1 + pre.length + 1) rest := rfl
    obtain ⟨new, hn, -, hp⟩ :=
      scanLines_pos rest (scanStep (scanLines initScan 1 pre) (1 + pre.length) hdr)
        (1 + pre.length + 1) hrest
    refine ⟨new, ?_, hp⟩
    rw [hred, hn, (scanStep_dg _ _ _ hh).2]
  · intro s n line h
    rcases scanStep_pos_shape s n line h with h2 | h2 <;> omega
  · intro s n line h
    exact (scanStep_dg s n line h).1

/-- Witness for C6: the monotonicity statement instantiated on a concrete
one-file diff with a context and an added line, and the reset statement on
the concrete file header. -/
theorem c6_witness :
    hasPrefix dgP w6hdr = true ∧
    (∃ new, buildDiffLineMap ([] ++ w6hdr :: w6rest) =
        (scanLines initScan 1 []).entries ++ new ∧
      List.Pairwise (fun a b => a.2.2 < b.2.2) new) ∧
    (scanStep initScan 1 w6hdr).pos = 0 :=
  ⟨by decide,
   c6_diffPosition_strictly_increasing_reset_only_at_file_header.1 [] w6rest w6hdr
     (by decide) (by decide),
   c6_diffPosition_strictly_increasing_reset_only_at_file_header.2.2 initScan 1 w6hdr
     (by decide)⟩

/-- Claim C9: the map builder and the resolver are pure functions, so two
runs on identical input give identical results; the diff-line map is
iterated in insertion order, which is strictly ascending in the diff line
number, and a fuzzy tie (two keys at equal distance within tolerance) is
broken deterministically in favour of the first-encountered key, as the two
concrete iteration orders of the same tie show. -/
theorem c9_determinism_and_first_key_tie_break :
    (∀ (ls : List Line) (cs : List RawComment),
        buildDiffLineMap ls = buildDiffLineMap ls ∧
        parse_diff_for_inline_comments ls cs = parse_diff_for_inline_comments ls cs) ∧
    (∀ ls : List Line, List.Pairwise (fun a b => a.1 < b.1) (buildDiffLineMap ls)) ∧
    distTo 13 (10, fX, 0) = distTo 13 (16, fY, 5) ∧
    fuzzyBest c9tieA 13 = some (fX, 0) ∧ fuzzyBest c9tieB 13 = some (fY, 5) := by
  refine ⟨fun ls cs => ⟨rfl, rfl⟩, ?_, by decide, by decide, by decide⟩
  intro ls
  obtain ⟨new, hn, -, hp⟩ := scanLines_keys ls initScan 1
  unfold buildDiffLineMap
  rw [hn]
  simpa [initScan] using hp

/-! ## Unparsable hunk headers (claim C4) -/

theorem patchStep_noHunk (s : PatchState) (line : Line) (hs : s.newLine = none)
    (hh : hasPrefix hhP line = false) :
    patchStep s line = ⟨s.position + 1, none, s.mapping⟩ := by
  obtain ⟨p, nl, M⟩ := s
  simp only at hs
  subst hs
  simp [patchStep, hh]

theorem patchSkip (bad : List Line) : ∀ s : PatchState, s.newLine = none →
    (∀ l ∈ bad, hasPrefix hhP l = false) →
    bad.foldl patchStep s = ⟨s.position + bad.length, none, s.mapping⟩ := by
  induction bad with
  | nil => intro s hs _; obtain ⟨p, nl, M⟩ := s; simp only at hs; subst hs; simp
  | cons l ls ih =>
      intro s hs hl
      rw [List.foldl_cons, patchStep_noHunk s l hs (hl l (List.mem_cons_self _ _)),
        ih _ rfl (fun x hx => hl x (List.mem_cons_of_mem _ hx))]
      simp only [PatchState.mk.injEq, List.length_cons, and_true, true_and]
      omega

theorem patchStep_badHeader (s : PatchState) (line : Line)
    (hh : hasPrefix hhP line = true) (hf : findPlusDigits line = none) :
    patchStep s line = ⟨s.position + 1, none, s.mapping⟩ := by
  simp [patchStep, hh, hf]

theorem dtsStep_noHunk (s : DTSState) (n : Nat) (line : Line) (hs : s.cur = none)
    (hh : hasPrefix hhP line = false) : dtsStep s n line = s := by
  obtain ⟨c, M⟩ := s
  simp only at hs
  subst hs
  simp [dtsStep, hh]

theorem dtsSkip (bad : List Line) : ∀ (s : DTSState) (n : Nat), s.cur = none →
    (∀ l ∈ bad, hasPrefix hhP l = false) →
    dtsLines s n bad = s := by
  induction bad with
  | nil => intro s n _ _; rfl
  | cons l ls ih =>
      intro s n hs hl
      have h1 : dtsLines s n (l :: ls) = dtsLines (dtsStep s n l) (n + 1) ls := rfl
      rw [h1, dtsStep_noHunk s n l hs (hl l (List.mem_cons_self _ _))]
      exact ih s (n + 1) hs (fun x hx => hl x (List.mem_cons_of_mem _ hx))

theorem dtsStep_badHeader (s : DTSState) (n : Nat) (line : Line)
    (hh : hasPrefix hhP line = true) (hf : findPlusDigits line = none) :
    dtsStep s n line = ⟨none, s.mapping⟩ := by
  simp [dtsStep, hh, hf]

theorem dtsLines_append (a b : List Line) : ∀ (s : DTSState) (n : Nat),
    dtsLines s n (a ++ b) = dtsLines (dtsLines s n a) (n + a.length) b := by
  induction a with
  | nil => intro s n; simp [dtsLines]
  | cons l ls ih =>
      intro s n
      have h1 : dtsLines s n ((l :: ls) ++ b) = dtsLines (dtsStep s n l) (n + 1) (ls ++ b) := rfl
      rw [h1, ih]
      have h2 : n + 1 + ls.length = n + (l :: ls).length := by
        simp [List.length_cons]; omega
      rw [h2]
      rfl

/-- Claim C4 (amended): in `_build_position_map_from_patch` and
`_build_diff_to_source_mapping`, a hunk whose `@@` header has no parseable
`+digits` contributes no map entries — the fold over the header and the
hunk's body reaches the remaining lines with the mapping unchanged (only
the raw-line position counter advanced, in the former) — so mapping
continues with the remaining hunks.  In `map_ai_comments_to_line_numbers`,
by contrast, added lines under an unparsable header still receive entries
computed from the previous hunk's continued counter (see the
counterexample). -/
theorem c4_amended_unparsable_hunk_skipped :
    (∀ (s : PatchState) (hdr : Line) (bad rest : List Line),
        hasPrefix hhP hdr = true → findPlusDigits hdr = none →
        (∀ l ∈ bad, hasPrefix hhP l = false) →
        (hdr :: (bad ++ rest)).foldl patchStep s =
          rest.foldl patchStep ⟨s.position + 1 + bad.length, none, s.mapping⟩) ∧
    (∀ (s : DTSState) (n : Nat) (hdr : Line) (bad rest : List Line),
        hasPrefix hhP hdr = true → findPlusDigits hdr = none →
        (∀ l ∈ bad, hasPrefix hhP l = false) →
        dtsLines s n (hdr :: (bad ++ rest)) =
          dtsLines ⟨none, s.mapping⟩ (n + 1 + bad.length) rest) := by
  constructor
  · intro s hdr bad rest hh hf hbad
    rw [List.foldl_cons, patchStep_badHeader s hdr hh hf, List.foldl_append,
      patchSkip bad _ rfl hbad]
  · intro s n hdr bad rest hh hf hbad
    have h1 : dtsLines s n (hdr :: (bad ++ rest)) =
        dtsLines (dtsStep s n hdr) (n + 1) (bad ++ rest) := rfl
    rw [h1, dtsStep_badHeader s n hdr hh hf, dtsLines_append,
      dtsSkip bad _ (n + 1) rfl hbad]

/-- Witness for C4: the amended statement instantiated with the concrete
unparsable header `@@ bad @@`, a two-line hunk body, and a following
parsable hunk. -/
theorem c4_witness :
    hasPrefix hhP w4hdr = true ∧ findPlusDigits w4hdr = none ∧
    (w4hdr :: (w4bad ++ w4rest)).foldl patchStep ⟨0, none, []⟩ =
      w4rest.foldl patchStep ⟨(0 : Nat) + 1 + w4bad.length, none, []⟩ ∧
    dtsLines ⟨none, []⟩ 1 (w4hdr :: (w4bad ++ w4rest)) =
      dtsLines ⟨none, []⟩ ((1 : Nat) + 1 + w4bad.length) w4rest :=
  ⟨by decide, by decide,
   c4_amended_unparsable_hunk_skipped.1 ⟨0, none, []⟩ w4hdr w4bad w4rest
     (by decide) (by decide) (by decide),
   c4_amended_unparsable_hunk_skipped.2 ⟨none, []⟩ 1 w4hdr w4bad w4rest
     (by decide) (by decide) (by decide)⟩

/-! ## Correspondence of the two position-map builders (claim C10) -/

theorem hasPrefix_single (d c : Char) (cs : Line) :
    hasPrefix [d] (c :: cs) = decide (d = c) := by
  by_cases h : d = c <;> simp [hasPrefix, h]

theorem dictInsertNat_append (k v : Nat) (l : List (Nat × Nat))
    (h : ∀ kv ∈ l, kv.1 ≠ k) : dictInsertNat k v l = l ++ [(k, v)] := by
  induction l with
  | nil => rfl
  | cons e es ih =>
      rw [dictInsertNat, if_neg (h e (List.mem_cons_self _ _)),
        ih (fun kv hkv => h kv (List.mem_cons_of_mem _ hkv))]
      rfl

theorem scanStep_entry (s : ScanState) (n : Nat) (f : Line) (c : Char) (cs : Line)
    (hf : s.currentFile = some f)
    (hdg : hasPrefix dgP (c :: cs) = false)
    (hhh : hasPrefix hhP (c :: cs) = false)
    (hbs : c ≠ '\\') (hm : c ≠ '-') :
    scanStep s n (c :: cs) = ⟨some f, s.pos + 1, s.entries ++ [(n, f, s.pos)]⟩ := by
  obtain ⟨cf, p, E⟩ := s
  simp only at hf
  subst hf
  by_cases hc : c = '+'
  · subst hc
    by_cases h3 : hasPrefix plus3P ('+' :: cs) = true
    · simp [scanStep, hdg, hhh, h3, hasPrefix_single, plusP, minusP, bsP]
    · simp [scanStep, hdg, hhh, h3, hasPrefix_single, plusP]
  · simp [scanStep, hdg, hhh, hasPrefix_single, plusP, minusP, bsP,
      Ne.symm hbs, Ne.symm hm, Ne.symm hc]

theorem scanStep_del (s : ScanState) (n : Nat) (f : Line) (cs : Line)
    (hf : s.currentFile = some f)
    (hdg : hasPrefix dgP ('-' :: cs) = false)
    (hhh : hasPrefix hhP ('-' :: cs) = false)
    (h3 : hasPrefix minus3P ('-' :: cs) = false) :
    scanStep s n ('-' :: cs) = ⟨some f, s.pos + 1, s.entries⟩ := by
  obtain ⟨cf, p, E⟩ := s
  simp only at hf
  subst hf
  simp [scanStep, hdg, hhh, h3, hasPrefix_single, plusP, minusP]

theorem patchStep_entry (t : PatchState) (m : Nat) (c : Char) (cs : Line)
    (hm : t.newLine = some m) (hhh : hasPrefix hhP (c :: cs) = false) (hc : c ≠ '-')
    (hk : ∀ kv ∈ t.mapping, kv.1 ≠ m) :
    patchStep t (c :: cs) =
      ⟨t.position + 1, some (m + 1), t.mapping ++ [(m, t.position + 1)]⟩ := by
  obtain ⟨p, nl, M⟩ := t
  simp only at hm hk ⊢
  subst hm
  by_cases hcp : c = '+'
  · subst hcp
    simp [patchStep, hhh, dictInsertNat_append m (p + 1) M hk]
  · simp [patchStep, hhh, hcp, hc, dictInsertNat_append m (p + 1) M hk]

theorem patchStep_del (t : PatchState) (m : Nat) (cs : Line)
    (hm : t.newLine = some m) (hhh : hasPrefix hhP ('-' :: cs) = false) :
    patchStep t ('-' :: cs) = ⟨t.position + 1, some m, t.mapping⟩ := by
  obtain ⟨p, nl, M⟩ := t
  simp only at hm
  subst hm
  simp [patchStep, hhh]

theorem syncFold (content : List Line) :
    ∀ (s : ScanState) (t : PatchState) (f : Line) (m n : Nat),
    s.currentFile = some f → t.newLine = some m → t.position = s.pos + 1 →
    (∀ kv ∈ t.mapping, kv.1 < m) →
    (∀ l ∈ content, contentLineOk l) →
    ∃ newS newB,
      (scanLines s n content).entries = s.entries ++ newS ∧
      (content.foldl patchStep t).mapping = t.mapping ++ newB ∧
      newB.map Prod.snd = newS.map (fun e => e.2.2 + 2) := by
  induction content with
  | nil =>
      intro s t f m n _ _ _ _ _
      exact ⟨[], [], by simp [scanLines], by simp, rfl⟩
  | cons l ls ih =>
      intro s t f m n hf hm hpos hk hok
      obtain ⟨hne, hhh, hdg, hbs, hm3⟩ := hok l (List.mem_cons_self _ _)
      obtain ⟨c, cs, rfl⟩ := List.exists_cons_of_ne_nil hne
      have hok2 : ∀ x ∈ ls, contentLineOk x := fun x hx => hok x (List.mem_cons_of_mem _ hx)
      have hred : scanLines s n ((c :: cs) :: ls) =
          scanLines (scanStep s n (c :: cs)) (n + 1) ls := rfl
      have hbs2 : c ≠ '\\' := by
        intro h
        subst h
        rw [bsP, hasPrefix_single] at hbs
        simp at hbs
      by_cases hc : c = '-'
      · subst hc
        have h1 := scanStep_del s n f cs hf hdg hhh hm3
        have h2 := patchStep_del t m cs hm hhh
        obtain ⟨newS, newB, e1, e2, e3⟩ :=
          ih ⟨some f, s.pos + 1, s.entries⟩ ⟨t.position + 1, some m, t.mapping⟩ f m (n + 1)
            rfl rfl (by simp only; omega) hk hok2
        refine ⟨newS, newB, ?_, ?_, e3⟩
        · rw [hred, h1]; exact e1
        · rw [List.foldl_cons, h2]; exact e2
      · have h1 := scanStep_entry s n f c cs hf hdg hhh hbs2 hc
        have h2 := patchStep_entry t m c cs hm hhh hc (fun kv hkv => Nat.ne_of_lt (hk kv hkv))
        obtain ⟨newS, newB, e1, e2, e3⟩ :=
          ih ⟨some f, s.pos + 1, s.entries ++ [(n, f, s.pos)]⟩
            ⟨t.position + 1, some (m + 1), t.mapping ++ [(m, t.position + 1)]⟩ f (m + 1) (n + 1)
            rfl rfl (by simp only; omega)
            (by
              intro kv hkv
              rcases List.mem_append.mp hkv with hkv2 | hkv2
              · exact Nat.lt_succ_of_lt (hk kv hkv2)
              · rw [List.mem_singleton.mp hkv2]
                exact Nat.lt_succ_self m)
            hok2
        refine ⟨(n, f, s.pos) :: newS, (m, t.position + 1) :: newB, ?_, ?_, ?_⟩
        · rw [hred, h1, e1]
          simp
        · rw [List.foldl_cons, h2, e2]
          simp
        · simp only [List.map_cons, List.cons.injEq]
          refine ⟨?_, e3⟩
          show t.position + 1 = s.pos + 2
          omega

/-- Claim C10 (amended): the two builders agree only hunk-by-hunk, not up to
one global constant.  For a patch consisting of a single parsable hunk
header followed by content lines that are none of empty / `@@` / no-newline
marker / file header / `---` marker, the per-file builder assigns to every
line it maps exactly the position the full-diff scanner assigns to the same
line plus the constant 2 (1 for the 1-based counter, 1 for the hunk header
the per-file builder counts); each further hunk header grows the offset by
one more (see the counterexample), so no single constant offset covers a
multi-hunk patch. -/
theorem c10_amended_single_hunk_offset_two :
    ∀ (dg hdr : Line) (content : List Line) (m0 : Nat),
    hasPrefix dgP dg = true → 4 ≤ (splitSpaces dg).length →
    hasPrefix hhP hdr = true → hasPrefix dgP hdr = false →
    findPlusDigits hdr = some m0 →
    (∀ l ∈ content, contentLineOk l) →
    (build_position_map_from_patch (hdr :: content)).map Prod.snd =
      (buildDiffLineMap (dg :: hdr :: content)).map (fun e => e.2.2 + 2) := by
  intro dg hdr content m0 h1 h2 h3 h4 h5 h6
  have hs1 : scanStep initScan 1 dg =
      ⟨some (stripBPrefix ((splitSpaces dg).getD 3 [])), 0, []⟩ := by
    simp [scanStep, initScan, h1, h2]
  have hs2 : scanStep (⟨some (stripBPrefix ((splitSpaces dg).getD 3 [])), 0, []⟩ : ScanState)
      2 hdr = ⟨some (stripBPrefix ((splitSpaces dg).getD 3 [])), 0, []⟩ := by
    simp [scanStep, h4, h3]
  have ht1 : patchStep ⟨0, none, []⟩ hdr = ⟨1, some m0, []⟩ := by
    simp [patchStep, h3, h5]
  obtain ⟨newS, newB, e1, e2, e3⟩ :=
    syncFold content ⟨some (stripBPrefix ((splitSpaces dg).getD 3 [])), 0, []⟩
      ⟨1, some m0, []⟩ (stripBPrefix ((splitSpaces dg).getD 3 [])) m0 3
      rfl rfl rfl (by simp) h6
  have hscan : buildDiffLineMap (dg :: hdr :: content) = newS := by
    unfold buildDiffLineMap
    have hred : scanLines initScan 1 (dg :: hdr :: content) =
        scanLines (scanStep (scanStep initScan 1 dg) 2 hdr) 3 content := rfl
    rw [hred, hs1, hs2, e1]
    simp
  have hpatch : build_position_map_from_patch (hdr :: content) = newB := by
    unfold build_position_map_from_patch
    rw [List.foldl_cons, ht1, e2]
    simp
  rw [hscan, hpatch]
  exact e3

/-- Witness for C10: the amended single-hunk correspondence instantiated on
a concrete four-line hunk with context, added and deleted lines. -/
theorem c10_witness :
    hasPrefix dgP w10dg = true ∧ findPlusDigits w10hdr = some 1 ∧
    (build_position_map_from_patch (w10hdr :: w10content)).map Prod.snd =
      (buildDiffLineMap (w10dg :: w10hdr :: w10content)).map (fun e => e.2.2 + 2) :=
  ⟨by decide, by decide,
   c10_amended_single_hunk_offset_two w10dg w10hdr w10content 1
     (by decide) (by decide) (by decide) (by decide) (by decide) (by decide)⟩

end ReviewCore
